import Mathlib

/-!
Verification of the PaliaTwitchbot retrieval-augmented Q&A pipeline.

Python strings are modelled as `List Char` (sequences of code points), so
that Python's slicing, concatenation and suffix facts become list facts.
Stateful parts (the response cache, the count of generation calls) are
modelled by explicit state passing; the external collaborators (vector
search, the OpenAI chat completion) are inputs of the engine, supplied as
functions in a `RagEnv` record.
-/

/-- Python strings, as sequences of code points. -/
abbrev Str := List Char

/-- Python `str.lower()` (code-point-wise lowercasing; the questions and
keys handled by this program are ASCII, where `Char.toLower` agrees with
Python). -/
def pyLower (s : Str) : Str := s.map Char.toLower

/-- Whitespace predicate used by Python `str.strip()` (space, tab,
newline, carriage return cover the program's inputs). -/
def isPySpace (c : Char) : Bool := c.isWhitespace

/-- Python `str.strip()`: remove leading and trailing whitespace. -/
def pyStrip (s : Str) : Str :=
  ((s.dropWhile isPySpace).reverse.dropWhile isPySpace).reverse

/-- Python `s[:k]` for an `int` bound `k`: a nonnegative bound keeps the
first `k` characters; a negative bound drops the last `-k` characters
(empty result when `-k` exceeds the length). -/
def pySliceTo (s : Str) (k : Int) : Str :=
  if 0 ≤ k then s.take k.toNat else s.take (s.length - (-k).toNat)

/-- Python `"; ".join`-style separator join. -/
def joinSep (sep : Str) : List Str → Str
  | [] => []
  | [x] => x
  | x :: y :: xs => x ++ sep ++ joinSep sep (y :: xs)

/-- Python `str.title()`: the first character of each alphabetic run is
uppercased, the rest lowercased (ASCII behaviour, which covers the
infobox keys of this program). -/
def pyTitle (s : Str) : Str :=
  (s.foldl
    (fun (acc : Str × Bool) c =>
      if c.isAlpha then
        (acc.1 ++ [if acc.2 then c.toLower else c.toUpper], true)
      else
        (acc.1 ++ [c], false))
    ([], false)).1

/-- Modelled stand-in for `hashlib.md5(...).hexdigest()`: an external
deterministic function of the input bytes. The engine relies on no
property of MD5 beyond determinism, so the digest is modelled as the
identity on the normalized text. -/
def md5hex (s : Str) : Str := s

/-- The apostrophe character, U+0027. -/
def apos : Char := Char.ofNat 39

/-- Metadata dictionary of a chunk, with the keys this program reads
(`metadata.get(key, default)` is modelled by `Option.getD`). The Python
key `section` is a Lean keyword, hence the field name `section'`. -/
structure ChunkMeta where
  title : Option Str
  url : Option Str
  category : Option Str
  section' : Option Str
  chunk_index : Option Nat
  deriving DecidableEq

/-- One entry of the list returned by `VectorStore.similarity_search`:
a dict with `text`, `metadata` and `distance`. -/
structure RetrChunk where
  text : Str
  metadata : ChunkMeta
  distance : Int
  deriving DecidableEq

/-- The settings the engine reads (`app/config.py` defaults). -/
structure RagSettings where
  retrieval_k : Nat := 5
  max_response_length : Int := 400

/-- The default settings instance. -/
def defaultSettings : RagSettings := {}

/-- External collaborators of `RAGEngine`: `vector_store.similarity_search`
(question and `k` to ranked chunks) and the OpenAI chat completion
(system prompt and user prompt to generated text). -/
structure RagEnv where
  retrieve : Str → Nat → List RetrChunk
  complete : Str → Str → Str

/-- Mutable state of `RAGEngine` across calls: the TTL response cache
(an association list from cache key to answer; the claims under study
condition on no TTL expiry and no capacity eviction between the calls
considered, so expiry is not modelled) and a counter of generation
calls, used to state "generation is invoked at most once". -/
structure RagState where
  cache : List (Str × Str)
  genCalls : Nat
  deriving DecidableEq

/-- `RAGEngine._cache_key`: `question.lower().strip()` hashed. -/
def cacheKey (question : Str) : Str := md5hex (pyStrip (pyLower question))

/-- `SYSTEM_PROMPT` from `rag_engine.py`. -/
def systemPromptText : Str :=
  "You are a helpful assistant for the game Palia. Answer questions based ONLY on the provided context from the Palia wiki.\n\nRules:\n1. Be concise - responses must be under 280 characters (a wiki link will be added after)\n2. If the answer isn".data ++ [apos] ++
  "t in the context, say \"I couldn".data ++ [apos] ++
  "t find that info.\"\n3. Never make up information not in the context\n4. Include specific details like locations, item names, or NPC names when relevant\n5. For gift preferences, be specific about what the villager loves/likes/dislikes\n6. Don".data ++ [apos] ++
  "t include citations or source references in your answer\n7. Write in a friendly, helpful tone suitable for Twitch chat".data

/-- `USER_PROMPT_TEMPLATE.format(context=..., question=...)`. -/
def userPromptText (context question : Str) : Str :=
  "Context from Palia Wiki:\n".data ++ context ++
  "\n\nQuestion: ".data ++ question ++
  "\n\nProvide a brief, helpful answer (under 280 characters):".data

/-- `RAGEngine._build_context`: each chunk's text prefixed by a bracketed
header (`[title - section]`, or `[title]` when the section is empty or
`infobox`), joined by the separator. -/
def buildContext (chunks : List RetrChunk) : Str :=
  joinSep "\n\n---\n\n".data
    (chunks.map (fun chunk =>
      let title := chunk.metadata.title.getD "Unknown".data
      let sec := chunk.metadata.section'.getD []
      let header :=
        if sec ≠ [] ∧ sec ≠ "infobox".data then
          "[".data ++ title ++ " - ".data ++ sec ++ "]".data
        else
          "[".data ++ title ++ "]".data
      header ++ "\n".data ++ chunk.text))

/-- `RAGEngine._generate_response`: the completion call on the fixed
system prompt and formatted user prompt, with `.strip()` applied to the
returned content. -/
def generateResponse (env : RagEnv) (question context : Str) : Str :=
  pyStrip (env.complete systemPromptText (userPromptText context question))

/-- `RAGEngine._get_best_source_url`: the first retrieved chunk (in rank
order) with a non-empty metadata url. -/
def getBestSourceUrl (chunks : List RetrChunk) : Option Str :=
  chunks.findSome? (fun chunk =>
    let url := chunk.metadata.url.getD []
    if url ≠ [] then some url else none)

/-- The fixed "not found" message returned on empty retrieval. -/
def notFoundMsg : Str :=
  "I couldn".data ++ [apos] ++ "t find that info in the wiki yet.".data

/-- `RAGEngine.query`: cache check, retrieval, context assembly,
generation, citation selection, fit-to-budget truncation, cache write.
Returns the answer string and the successor engine state. -/
def query (env : RagEnv) (s : RagSettings) (st : RagState) (question : Str) :
    Str × RagState :=
  let key := cacheKey question
  match st.cache.lookup key with
  | some cached => (cached, st)
  | none =>
    let chunks := env.retrieve question s.retrieval_k
    if chunks = [] then
      (notFoundMsg, st)
    else
      let context := buildContext chunks
      let answer := generateResponse env question context
      let sourceUrl := getBestSourceUrl chunks
      let maxLen : Int := s.max_response_length
      let maxAnswerLen : Int :=
        match sourceUrl with
        | some url => maxLen - ((url.length : Int) + 3)
        | none => maxLen
      let answer1 :=
        if (answer.length : Int) > maxAnswerLen then
          pySliceTo answer (maxAnswerLen - 3) ++ "...".data
        else answer
      let answer2 :=
        match sourceUrl with
        | some url => answer1 ++ " | ".data ++ url
        | none => answer1
      (answer2, { cache := (key, answer2) :: st.cache, genCalls := st.genCalls + 1 })

/-- One entry of the list returned by `RAGEngine.get_sources`. -/
structure SourceInfo where
  title : Str
  url : Str
  section' : Str
  deriving DecidableEq

/-- The accumulation loop of `RAGEngine.get_sources`: walk the retrieved
chunks in rank order, keeping the first occurrence of each non-empty url. -/
def sourcesLoop : List RetrChunk → List Str → List SourceInfo
  | [], _ => []
  | chunk :: rest, seen =>
    let url := chunk.metadata.url.getD []
    if url ≠ [] ∧ url ∉ seen then
      { title := chunk.metadata.title.getD "Unknown".data
        url := url
        section' := chunk.metadata.section'.getD [] } :: sourcesLoop rest (url :: seen)
    else
      sourcesLoop rest seen

/-- `RAGEngine.get_sources`: retrieval with the caller's `k`, then
first-occurrence deduplication by url. -/
def getSources (env : RagEnv) (question : Str) (k : Nat) : List SourceInfo :=
  sourcesLoop (env.retrieve question k) []

/-- First-occurrence deduplication of a list of urls relative to an
already-seen set, mirroring the shape of `sourcesLoop`. -/
def firstDedupAux : List Str → List Str → List Str
  | [], _ => []
  | x :: xs, seen =>
    if x ∈ seen then firstDedupAux xs seen else x :: firstDedupAux xs (x :: seen)

/-- First-occurrence deduplication (first occurrence wins, order kept). -/
def firstDedup (xs : List Str) : List Str := firstDedupAux xs []

/-- A section of a wiki page (`page_parser.WikiSection`). -/
structure WikiSection where
  heading : Str
  content : Str
  deriving DecidableEq

/-- A parsed wiki page (`page_parser.WikiPage`); the infobox dict is an
insertion-ordered association list. -/
structure WikiPage where
  title : Str
  url : Str
  category : Str
  infobox : List (Str × Str)
  sections : List WikiSection
  full_text : Str
  deriving DecidableEq

/-- `page_parser.format_infobox`: keys converted from snake_case to
title case and joined with the values as `"Key: value"` parts. -/
def formatInfobox (infobox : List (Str × Str)) : Str :=
  joinSep "; ".data
    (infobox.map (fun kv =>
      pyTitle (kv.1.map (fun c => if c = '_' then ' ' else c)) ++ ": ".data ++ kv.2))

/-- A text chunk with metadata (`chunker.Chunk`). -/
structure Chunk where
  text : Str
  metadata : ChunkMeta
  deriving DecidableEq

/-- The separator priority list the chunker passes to the splitter:
`["\n\n", "\n", ". ", ", ", " ", ""]`; the final empty separator
(character-level splitting) is the base case of `recSplit`. -/
def separators : List Str :=
  ["\n\n".data, "\n".data, ". ".data, ", ".data, " ".data]

/-- Character-level fallback split into blocks of at most `size`
characters (the empty-string separator of the recursive splitter). The
fuel argument makes the recursion structural; `charChunks` supplies
enough fuel for the whole input. -/
def charChunksF : Nat → Nat → Str → List Str
  | 0, _, t => [t]
  | fuel + 1, size, t =>
    if size = 0 ∨ t.length ≤ size then [t]
    else t.take size :: charChunksF fuel size (t.drop size)

/-- Character-level split into blocks of at most `size` characters. -/
def charChunks (size : Nat) (t : Str) : List Str := charChunksF t.length size t

/-- Split `t` at every occurrence of `sep`, keeping each separator
occurrence attached to the end of the piece before it (so that the
pieces concatenate back to `t`). `acc` holds the current piece reversed;
the fuel argument makes the recursion structural. -/
def splitKeepSepF : Nat → Str → Str → Str → List Str
  | 0, _, acc, t => [acc.reverse ++ t]
  | fuel + 1, sep, acc, t =>
    if sep ≠ [] ∧ sep.isPrefixOf t then
      (acc.reverse ++ sep) :: splitKeepSepF fuel sep [] (t.drop sep.length)
    else
      match t with
      | [] => [acc.reverse]
      | c :: t' => splitKeepSepF fuel sep (c :: acc) t'

/-- Split `t` at every occurrence of `sep`, separators kept. -/
def splitKeepSep (sep t : Str) : List Str := splitKeepSepF (t.length + 1) sep [] t

/-- Modelled from the spec: the recursive text-splitting strategy of the
library `RecursiveCharacterTextSplitter` used by `chunker.create_chunks`
(the library is not part of this repository). Per the spec, the splitter
"recursively tries separators in priority order (paragraph break, line
break, sentence end, clause break, space, character) until chunks are
under chunk_size": a piece already within `size` is kept whole,
otherwise it is split by the first separator and each piece is handled
recursively with the remaining separators, character-level splitting
being the last resort. -/
def recSplit (seps : List Str) (size : Nat) (t : Str) : List Str :=
  if t.length ≤ size then [t]
  else
    match seps with
    | [] => charChunks size t
    | sep :: rest => (splitKeepSep sep t).flatMap (fun piece => recSplit rest size piece)

/-- The last `n` characters of a string (the whole string when shorter). -/
def lastN (n : Nat) (s : Str) : Str := s.drop (s.length - n)

/-- Modelled from the spec: the overlap stitching of the library text
splitter — `chunk_overlap` trailing characters of piece `N` are carried
to the start of piece `N + 1`. `prev` is the piece preceding the ones
still to stitch. -/
def stitchRest (ov : Nat) (prev : Str) : List Str → List Str
  | [] => []
  | c :: cs => (lastN ov prev ++ c) :: stitchRest ov c cs

/-- Overlap stitching over a whole piece list (the first piece is kept
as is). -/
def stitch (ov : Nat) : List Str → List Str
  | [] => []
  | c :: cs => c :: stitchRest ov c cs

/-- Modelled from the spec: `splitter.split_text` — recursive splitting
followed by overlap stitching. -/
def splitText (size ov : Nat) (t : Str) : List Str :=
  stitch ov (recSplit separators size t)

/-- The metadata shared by all chunks of a page (`base_metadata`). -/
def baseMetadata (page : WikiPage) : ChunkMeta :=
  { title := some page.title
    url := some page.url
    category := some page.category
    section' := none
    chunk_index := none }

/-- The single infobox chunk `create_chunks` emits for a page with a
non-empty infobox: title, blank line, formatted infobox, tagged
`section="infobox"`, with no `chunk_index` key. -/
def infoboxChunk (page : WikiPage) : Chunk :=
  { text := page.title ++ "\n\n".data ++ formatInfobox page.infobox
    metadata := { baseMetadata page with section' := some "infobox".data } }

/-- The prefix `f"{page.title} - {section.heading}\n\n"` put in front of
every chunk of a section. -/
def sectionPref (page : WikiPage) (sec : WikiSection) : Str :=
  page.title ++ " - ".data ++ sec.heading ++ "\n\n".data

/-- The chunks `create_chunks` emits for one section: the split pieces
of the section content, each prefixed and numbered by `chunk_index`. -/
def sectionChunks (page : WikiPage) (size ov : Nat) (sec : WikiSection) : List Chunk :=
  (splitText size ov sec.content).enum.map (fun it =>
    { text := sectionPref page sec ++ it.2
      metadata := { baseMetadata page with
                      section' := some sec.heading
                      chunk_index := some it.1 } })

/-- The fallback chunks over `page.full_text` when the page has neither
sections nor an infobox, tagged `section="full_text"`. -/
def fullTextChunks (page : WikiPage) (size ov : Nat) : List Chunk :=
  (splitText size ov page.full_text).enum.map (fun it =>
    { text := it.2
      metadata := { baseMetadata page with
                      section' := some "full_text".data
                      chunk_index := some it.1 } })

/-- `chunker.create_chunks`: the optional infobox chunk, then the chunks
of each section in order, then (only for a page with neither sections
nor infobox) the full-text fallback chunks. -/
def createChunks (page : WikiPage) (size ov : Nat) : List Chunk :=
  (if page.infobox ≠ [] then [infoboxChunk page] else []) ++
  page.sections.flatMap (sectionChunks page size ov) ++
  (if page.sections = [] ∧ page.infobox = [] then fullTextChunks page size ov else [])

/-- `SKIP_PATTERNS` from `wiki_scraper.py`. -/
def skipPatterns : List Str :=
  ["/wiki/File:".data, "/wiki/Template:".data, "/wiki/Category:".data,
   "/wiki/Special:".data, "/wiki/User:".data, "/wiki/Talk:".data,
   "/wiki/Module:".data, "/wiki/MediaWiki:".data, "/wiki/Guide:".data,
   "?action=".data, "/wiki/Main_Page".data]

/-- `LANGUAGE_SUFFIXES` from `wiki_scraper.py`. -/
def languageSuffixes : List Str :=
  ["/de".data, "/es".data, "/fr".data, "/it".data, "/ja".data, "/ko".data,
   "/pl".data, "/pt-br".data, "/ru".data, "/th".data, "/tr".data, "/uk".data,
   "/vi".data, "/zh-hans".data, "/zh-tw".data]

/-- Python `pattern in url`: substring occurrence. -/
def containsSub (p s : Str) : Bool := decide (p <:+: s)

/-- `WikiScraper.should_skip_url`: true when some skip pattern occurs in
the url or some language suffix ends it. -/
def shouldSkipUrl (url : Str) : Bool :=
  skipPatterns.any (fun p => containsSub p url) ||
  languageSuffixes.any (fun suf => suf.isSuffixOf url)

/-- ASCII lower-case letter test (the `[a-z]` class). -/
def isAsciiLower (c : Char) : Bool := 'a' ≤ c && c ≤ 'z'

/-- ASCII upper-case letter test (the `[A-Z]` class). -/
def isAsciiUpper (c : Char) : Bool := 'A' ≤ c && c ≤ 'Z'

/-- `re.search(r"/wiki/[A-Z][a-z]+$", url)`: the url ends in `/wiki/`
followed by one upper-case and at least one lower-case ASCII letter.
The regex is end-anchored, so a match, read from the end of the url, is
a maximal non-empty run of `[a-z]` characters, preceded by one `[A-Z]`
character, preceded by the literal `/wiki/` (a shorter lower-case run
would be preceded by a lower-case character, which `[A-Z]` rejects). -/
def matchesSimplePage (url : Str) : Bool :=
  let r := url.reverse
  let ls := r.takeWhile isAsciiLower
  let rest := r.dropWhile isAsciiLower
  decide (ls ≠ []) &&
    match rest with
    | c :: rest' => isAsciiUpper c && "/wiki/".data.reverse.isPrefixOf rest'
    | [] => false

/-- `priority_key` from `WikiScraper.scrape_all`: the index of the first
matching pattern of `PRIORITY_PATTERNS` (the four literal patterns are
substring searches), or the pattern count (5) when none matches. -/
def priorityKey (url : Str) : Nat :=
  if matchesSimplePage url then 0
  else if containsSub "/wiki/Quests".data url then 1
  else if containsSub "/wiki/Skills".data url then 2
  else if containsSub "/wiki/Locations".data url then 3
  else if containsSub "/wiki/Gifting".data url then 4
  else 5

/-- Stable insertion of `x` into `l`: `x` is placed before the first
element `y` with `le x y` (so an element inserted later, i.e. earlier in
the original list, lands before the elements it ties with). -/
def stableInsert (le : Str → Str → Bool) (x : Str) : List Str → List Str
  | [] => [x]
  | y :: ys => if le x y then x :: y :: ys else y :: stableInsert le x ys

/-- Stable insertion sort, modelling Python `list.sort` (Python's sort
is guaranteed stable; any stable sort is extensionally the same
function). -/
def stableSort (le : Str → Str → Bool) : List Str → List Str
  | [] => []
  | x :: xs => stableInsert le x (stableSort le xs)

/-- The comparison `urls.sort(key=priority_key)` sorts by. -/
def priorityLe (a b : Str) : Bool := priorityKey a ≤ priorityKey b

/-- The URL-planning stage of `WikiScraper.scrape_all`: filter out the
urls `should_skip_url` rejects, stably sort by `priority_key`, then
apply the `max_pages` cap (Python treats both `None` and `0` as "no
cap", since `if self.config.max_pages:` tests truthiness). -/
def scrapePlan (urls : List Str) (maxPages : Option Nat) : List Str :=
  let filtered := urls.filter (fun u => !shouldSkipUrl u)
  let sorted := stableSort priorityLe filtered
  match maxPages with
  | some m => if m = 0 then sorted else sorted.take m
  | none => sorted

/-- Modelled from the spec: the claimed contract
`run(config, progress_callback?, skip_urls?)` of the scrape run, which
on top of the source's planning "iterates the planner's ordered URL
list, skipping any URL present in `skip_urls` (incremental-mode
support)". This definition follows the spec's words, to be compared
with `scrapePlan`, the planning actually present in
`WikiScraper.scrape_all`. -/
def scrapePlanSpec (urls : List Str) (maxPages : Option Nat) (skipUrls : List Str) :
    List Str :=
  (scrapePlan urls maxPages).filter (fun u => !skipUrls.contains u)

/-- The document identifier `f"chunk_{n}"` assigned by
`VectorStore.add_chunks`. -/
def chunkId (n : Nat) : Str := "chunk_".data ++ (Nat.repr n).data

/-- The batched identifier-assignment loop of `VectorStore.add_chunks`:
`for i in range(0, n, batch_size)` emits `f"chunk_{i + j}"` for
`j in range(len(batch))` with `len(batch) = min(batch_size, n - i)`.
The fuel argument makes the loop structural; `addChunksIds` supplies
enough fuel. -/
def addChunksIdsF : Nat → Nat → Nat → Nat → List Str
  | 0, _, _, _ => []
  | fuel + 1, i, n, bs =>
    if i < n then
      (List.range (min bs (n - i))).map (fun j => chunkId (i + j)) ++
        addChunksIdsF fuel (i + bs) n bs
    else []

/-- The identifiers one `VectorStore.add_chunks` call assigns to `n`
chunks with the given batch size (Python `range(0, n, 0)` raises, so a
zero batch size is mapped to the empty run). -/
def addChunksIds (n bs : Nat) : List Str :=
  if bs = 0 then [] else addChunksIdsF n 0 n bs

/-- The engine state with empty cache and no generation calls yet. -/
def ragState0 : RagState := { cache := [], genCalls := 0 }

def c2env : RagEnv := { retrieve := fun _ _ => [], complete := fun _ _ => [] }

def c3chunk : RetrChunk :=
  { text := "t".data
    metadata := { title := some "T".data, url := some "u".data,
                  category := none, section' := none, chunk_index := none }
    distance := 0 }

def c3env : RagEnv :=
  { retrieve := fun q _ => if q = "x".data then [c3chunk] else []
    complete := fun _ _ => "Ans".data }

def c1chunk : RetrChunk :=
  { text := "t".data
    metadata := { title := some "T".data, url := some (List.replicate 395 'u'),
                  category := none, section' := none, chunk_index := none }
    distance := 0 }

def c1env : RagEnv :=
  { retrieve := fun _ _ => [c1chunk], complete := fun _ _ => "abc".data }

/-- The record `get_sources` builds from a chunk. -/
def sourceOf (c : RetrChunk) : SourceInfo :=
  { title := c.metadata.title.getD "Unknown".data
    url := c.metadata.url.getD []
    section' := c.metadata.section'.getD [] }

def c7chunkA : RetrChunk :=
  { text := "a".data
    metadata := { title := some "A".data, url := some "u1".data,
                  category := none, section' := some "s1".data, chunk_index := some 0 }
    distance := 0 }

def c7chunkB : RetrChunk :=
  { text := "b".data
    metadata := { title := some "B".data, url := none,
                  category := none, section' := some "s2".data, chunk_index := some 1 }
    distance := 1 }

def c7env : RagEnv :=
  { retrieve := fun _ _ => [c7chunkA, c7chunkB, c7chunkA], complete := fun _ _ => [] }

def c6urls : List Str :=
  ["/wiki/Fish".data, "/wiki/Category:Fish".data, "/wiki/zzz9".data]

def c5page : WikiPage :=
  { title := "T".data, url := "u".data, category := "General".data
    infobox := [("a".data, "b".data)]
    sections := [{ heading := "infobox".data, content := "hi".data }]
    full_text := [] }

def c5goodpage : WikiPage :=
  { title := "T".data, url := "u".data, category := "General".data
    infobox := [("a".data, "b".data)]
    sections := []
    full_text := [] }

def c8page : WikiPage :=
  { title := "T".data, url := "u".data, category := "General".data
    infobox := []
    sections := [{ heading := "H".data, content := "ab cd ef".data }]
    full_text := [] }

def c8sec : WikiSection := { heading := "H".data, content := "ab cd ef".data }

theorem query_hit (env : RagEnv) (s : RagSettings) (st : RagState) (q v : Str)
    (hc : st.cache.lookup (cacheKey q) = some v) :
    query env s st q = (v, st) := by
  simp [query, hc]

theorem query_miss_nonempty (env : RagEnv) (s : RagSettings) (st : RagState) (q : Str)
    (hc : st.cache.lookup (cacheKey q) = none)
    (hr : env.retrieve q s.retrieval_k ≠ []) :
    ∃ ans, query env s st q =
      (ans, { cache := (cacheKey q, ans) :: st.cache, genCalls := st.genCalls + 1 }) := by
  unfold query
  simp only [hc, hr, if_false, ite_false]
  exact ⟨_, rfl⟩

/-- C2: empty retrieval returns the fixed not-found message, performs no
generation call and writes nothing to the cache. -/
theorem c2_empty_retrieval_not_found (env : RagEnv) (s : RagSettings) (st : RagState)
    (q : Str) (hc : st.cache.lookup (cacheKey q) = none)
    (hr : env.retrieve q s.retrieval_k = []) :
    query env s st q = (notFoundMsg, st) := by
  unfold query
  simp only [hc, hr, if_true, ite_true]

theorem c2_witness :
    query c2env defaultSettings ragState0 "hi".data = (notFoundMsg, ragState0) :=
  c2_empty_retrieval_not_found c2env defaultSettings ragState0 "hi".data rfl rfl

/-- C3 (amended): two queries whose questions share a cache key, the first
of which retrieves a non-empty chunk list, return byte-identical strings
and invoke generation at most once across both calls. -/
theorem c3_idempotent_within_cache (env : RagEnv) (s : RagSettings) (st : RagState)
    (q1 q2 : Str) (hk : cacheKey q1 = cacheKey q2)
    (hr : env.retrieve q1 s.retrieval_k ≠ []) :
    (query env s (query env s st q1).2 q2).1 = (query env s st q1).1 ∧
    (query env s (query env s st q1).2 q2).2.genCalls ≤ st.genCalls + 1 := by
  cases h : st.cache.lookup (cacheKey q1) with
  | some v =>
    have e1 : query env s st q1 = (v, st) := query_hit env s st q1 v h
    have h2 : st.cache.lookup (cacheKey q2) = some v := hk ▸ h
    have e2 : query env s st q2 = (v, st) := query_hit env s st q2 v h2
    rw [e1, e2]
    exact ⟨rfl, Nat.le_succ _⟩
  | none =>
    obtain ⟨ans, e1⟩ := query_miss_nonempty env s st q1 h hr
    have h2 : (((cacheKey q1, ans) :: st.cache).lookup (cacheKey q2)) = some ans := by
      simp [List.lookup, ← hk]
    have e2 : query env s
        { cache := (cacheKey q1, ans) :: st.cache, genCalls := st.genCalls + 1 } q2 =
        (ans, { cache := (cacheKey q1, ans) :: st.cache, genCalls := st.genCalls + 1 }) :=
      query_hit env s _ q2 ans h2
    rw [e1, e2]
    exact ⟨rfl, Nat.le_refl _⟩

/-- C3 counterexample: `"x "` and `"x"` share a fingerprint, the calls
happen with no cached entry, no eviction and no expiry in between, yet
the first call (empty retrieval, not cached) and the second call
(non-empty retrieval) return different strings. -/
theorem c3_counterexample :
    cacheKey "x ".data = cacheKey "x".data ∧
    (query c3env defaultSettings (query c3env defaultSettings ragState0 "x ".data).2
        "x".data).1 ≠
      (query c3env defaultSettings ragState0 "x ".data).1 := by
  decide

theorem c3_witness :
    (query c3env defaultSettings (query c3env defaultSettings ragState0 "x".data).2
        "x".data).1 = (query c3env defaultSettings ragState0 "x".data).1 ∧
    (query c3env defaultSettings (query c3env defaultSettings ragState0 "x".data).2
        "x".data).2.genCalls ≤ ragState0.genCalls + 1 :=
  c3_idempotent_within_cache c3env defaultSettings ragState0 "x".data "x".data rfl
    (by decide)

/-- C9: questions equal after lowercasing and stripping produce the same
cache key (`hashlib.md5` is a deterministic function of its input). -/
theorem c9_cache_key_normalization (q1 q2 : Str)
    (h : pyStrip (pyLower q1) = pyStrip (pyLower q2)) :
    cacheKey q1 = cacheKey q2 := by
  unfold cacheKey
  rw [h]

theorem c9_witness :
    pyStrip (pyLower "What Does Hassian Like".data) =
      pyStrip (pyLower "  what does hassian like  ".data) ∧
    cacheKey "What Does Hassian Like".data = cacheKey "  what does hassian like  ".data :=
  ⟨by decide, c9_cache_key_normalization _ _ (by decide)⟩

set_option maxRecDepth 8000 in
/-- C1 (code bug): with a retrieved citation url of 395 characters and a
generated answer of 3 characters, the reserved answer budget
`400 - (395 + 3) = 2` is exceeded, the Python slice `answer[:2 - 3]`
drops one character from the end instead of truncating to the budget,
and the returned string has 403 characters — above the documented
`max_response_length` of 400. -/
theorem c1_truncation_overflow :
    (query c1env defaultSettings ragState0 "q".data).1.length = 403 ∧
    defaultSettings.max_response_length = 400 := by
  constructor
  · decide
  · rfl

theorem sourcesLoop_urls (cs : List RetrChunk) :
    ∀ seen, (sourcesLoop cs seen).map (·.url) =
      firstDedupAux ((cs.map (fun c => c.metadata.url.getD [])).filter (· ≠ [])) seen := by
  induction cs with
  | nil => intro seen; rfl
  | cons c rest ih =>
    intro seen
    by_cases hu : c.metadata.url.getD [] = []
    · simp [sourcesLoop, firstDedupAux, hu, ih]
    · by_cases hs : c.metadata.url.getD [] ∈ seen
      · simp [sourcesLoop, firstDedupAux, hu, hs, ih]
      · simp [sourcesLoop, firstDedupAux, hu, hs, ih]

theorem firstDedupAux_not_mem_seen (xs : List Str) :
    ∀ seen x, x ∈ firstDedupAux xs seen → x ∉ seen := by
  induction xs with
  | nil => intro seen x hx; simp [firstDedupAux] at hx
  | cons y ys ih =>
    intro seen x hx
    by_cases hy : y ∈ seen
    · exact ih seen x (by simpa [firstDedupAux, hy] using hx)
    · rw [firstDedupAux, if_neg hy] at hx
      rcases List.mem_cons.1 hx with rfl | hx'
      · exact hy
      · intro hxs
        exact ih (y :: seen) x hx' (List.mem_cons_of_mem y hxs)

theorem firstDedupAux_nodup (xs : List Str) :
    ∀ seen, (firstDedupAux xs seen).Nodup := by
  induction xs with
  | nil => intro seen; simp [firstDedupAux]
  | cons y ys ih =>
    intro seen
    by_cases hy : y ∈ seen
    · simpa [firstDedupAux, hy] using ih seen
    · rw [firstDedupAux, if_neg hy]
      refine List.nodup_cons.2 ⟨?_, ih (y :: seen)⟩
      intro hmem
      exact firstDedupAux_not_mem_seen ys (y :: seen) y hmem (List.mem_cons_self y seen)

theorem sourcesLoop_mem (cs : List RetrChunk) :
    ∀ seen s, s ∈ sourcesLoop cs seen → s.url ≠ [] ∧ ∃ c ∈ cs, s = sourceOf c := by
  induction cs with
  | nil => intro seen s hs; simp [sourcesLoop] at hs
  | cons c rest ih =>
    intro seen s hs
    by_cases hc : c.metadata.url.getD [] ≠ [] ∧ c.metadata.url.getD [] ∉ seen
    · rw [sourcesLoop, if_pos hc] at hs
      rcases List.mem_cons.1 hs with rfl | hs'
      · exact ⟨hc.1, c, List.mem_cons_self c rest, rfl⟩
      · obtain ⟨h1, c', hc', rfl⟩ := ih _ s hs'
        exact ⟨h1, c', List.mem_cons_of_mem c hc', rfl⟩
    · rw [sourcesLoop, if_neg hc] at hs
      obtain ⟨h1, c', hc', rfl⟩ := ih _ s hs
      exact ⟨h1, c', List.mem_cons_of_mem c hc', rfl⟩

/-- C7: `get_sources` returns no two entries with the same url, each
returned url sits at the rank of its first occurrence in retrieval
order (the url sequence is exactly the first-occurrence deduplication
of the retrieved non-empty urls), every entry carries the title, url
and section of a retrieved chunk, and chunks with an empty or absent
url are omitted. -/
theorem c7_get_sources_dedup (env : RagEnv) (q : Str) (k : Nat) :
    ((getSources env q k).map (·.url)).Nodup ∧
    (getSources env q k).map (·.url) =
      firstDedup (((env.retrieve q k).map (fun c => c.metadata.url.getD [])).filter
        (· ≠ [])) ∧
    ∀ s ∈ getSources env q k, s.url ≠ [] ∧ ∃ c ∈ env.retrieve q k, s = sourceOf c := by
  refine ⟨?_, ?_, ?_⟩
  · rw [getSources, sourcesLoop_urls]
    exact firstDedupAux_nodup _ []
  · rw [getSources, sourcesLoop_urls]
    rfl
  · intro s hs
    exact sourcesLoop_mem _ [] s hs

theorem c7_witness :
    sourceOf c7chunkA ∈ getSources c7env "q".data 3 ∧
    (sourceOf c7chunkA).url ≠ [] ∧
    ∃ c ∈ c7env.retrieve "q".data 3, sourceOf c7chunkA = sourceOf c := by
  refine ⟨by decide, ?_⟩
  exact (c7_get_sources_dedup c7env "q".data 3).2.2 (sourceOf c7chunkA) (by decide)

theorem stableInsert_perm (le : Str → Str → Bool) (x : Str) :
    ∀ l : List Str, List.Perm (stableInsert le x l) (x :: l) := by
  intro l
  induction l with
  | nil => rfl
  | cons y ys ih =>
    rw [stableInsert]
    by_cases h : le x y
    · rw [if_pos h]
    · rw [if_neg h]
      exact (ih.cons y).trans (List.Perm.swap x y ys)

theorem stableSort_perm (le : Str → Str → Bool) :
    ∀ l : List Str, List.Perm (stableSort le l) l := by
  intro l
  induction l with
  | nil => rfl
  | cons x xs ih => exact (stableInsert_perm le x (stableSort le xs)).trans (ih.cons x)

theorem stableInsert_sorted (x : Str) (l : List Str)
    (h : l.Pairwise (fun a b => priorityKey a ≤ priorityKey b)) :
    (stableInsert priorityLe x l).Pairwise (fun a b => priorityKey a ≤ priorityKey b) := by
  induction l with
  | nil => simp [stableInsert]
  | cons y ys ih =>
    rw [List.pairwise_cons] at h
    rw [stableInsert]
    by_cases hxy : priorityLe x y
    · rw [if_pos hxy]
      have hxy' : priorityKey x ≤ priorityKey y := by
        simpa [priorityLe] using hxy
      refine List.pairwise_cons.2 ⟨?_, List.pairwise_cons.2 ⟨h.1, h.2⟩⟩
      intro b hb
      rcases List.mem_cons.1 hb with rfl | hb'
      · exact hxy'
      · exact le_trans hxy' (h.1 b hb')
    · rw [if_neg hxy]
      have hyx : priorityKey y ≤ priorityKey x :=
        Nat.le_of_not_le (by simpa [priorityLe] using hxy)
      refine List.pairwise_cons.2 ⟨?_, ih h.2⟩
      intro b hb
      have hb' := (stableInsert_perm priorityLe x ys).mem_iff.1 hb
      rcases List.mem_cons.1 hb' with rfl | hb''
      · exact hyx
      · exact h.1 b hb''

theorem stableSort_sorted :
    ∀ l : List Str,
      (stableSort priorityLe l).Pairwise (fun a b => priorityKey a ≤ priorityKey b) := by
  intro l
  induction l with
  | nil => simp [stableSort]
  | cons x xs ih => exact stableInsert_sorted x (stableSort priorityLe xs) ih

theorem filter_stableInsert (k : Nat) (x : Str) :
    ∀ l : List Str,
      (stableInsert priorityLe x l).filter (fun u => priorityKey u = k) =
        (x :: l).filter (fun u => priorityKey u = k) := by
  intro l
  induction l with
  | nil => rfl
  | cons y ys ih =>
    rw [stableInsert]
    by_cases hxy : priorityLe x y
    · rw [if_pos hxy]
    · rw [if_neg hxy]
      have hyx : ¬ priorityKey x ≤ priorityKey y := by
        simpa [priorityLe] using hxy
      by_cases hx : priorityKey x = k
      · have hy : ¬ priorityKey y = k := by omega
        simp [List.filter_cons, hx, hy, ih]
      · by_cases hy : priorityKey y = k
        · simp [List.filter_cons, hx, hy, ih]
        · simp [List.filter_cons, hx, hy, ih]

theorem filter_stableSort (k : Nat) :
    ∀ l : List Str,
      (stableSort priorityLe l).filter (fun u => priorityKey u = k) =
        l.filter (fun u => priorityKey u = k) := by
  intro l
  induction l with
  | nil => rfl
  | cons x xs ih =>
    rw [stableSort, filter_stableInsert]
    by_cases hx : priorityKey x = k
    · simp [List.filter_cons, hx, ih]
    · simp [List.filter_cons, hx, ih]

theorem shouldSkipUrl_of_category (u : Str)
    (h : "/wiki/Category:".data <:+: u) : shouldSkipUrl u = true := by
  apply Bool.or_eq_true_iff.2
  left
  refine List.any_eq_true.2 ⟨"/wiki/Category:".data, by decide, ?_⟩
  simpa [containsSub] using h

theorem shouldSkipUrl_of_de (u : Str)
    (h : "/de".data <:+ u) : shouldSkipUrl u = true := by
  apply Bool.or_eq_true_iff.2
  right
  refine List.any_eq_true.2 ⟨"/de".data, by decide, ?_⟩
  simpa [List.isSuffixOf_iff_suffix] using h

theorem mem_scrapePlan_iff (urls : List Str) (u : Str) :
    u ∈ scrapePlan urls none ↔ u ∈ urls ∧ shouldSkipUrl u = false := by
  rw [scrapePlan]
  constructor
  · intro h
    have := (stableSort_perm priorityLe _).mem_iff.1 h
    have h2 := List.mem_filter.1 this
    exact ⟨h2.1, by simpa using h2.2⟩
  · intro ⟨h1, h2⟩
    exact (stableSort_perm priorityLe _).mem_iff.2
      (List.mem_filter.2 ⟨h1, by simp [h2]⟩)

/-- C6: crawl planning excludes every url containing a blocklisted
substring (such as `/wiki/Category:`) and every url ending in a
language suffix (such as `/de`); the remaining urls are a permutation
of the skip-filtered input, sorted by priority key (any url occurring
before another in the plan has a key at most the other's), the sort is
stable (within each priority class the original relative order is
kept), and a url matching the short-canonical-name pattern (priority 0)
never appears after a url matching no priority pattern (priority 5). -/
theorem c6_crawl_planning (urls : List Str) :
    (∀ u ∈ scrapePlan urls none, shouldSkipUrl u = false) ∧
    (∀ u : Str, "/wiki/Category:".data <:+: u → u ∉ scrapePlan urls none) ∧
    (∀ u : Str, "/de".data <:+ u → u ∉ scrapePlan urls none) ∧
    List.Perm (scrapePlan urls none) (urls.filter (fun u => !shouldSkipUrl u)) ∧
    (∀ k : Nat, (scrapePlan urls none).filter (fun u => priorityKey u = k) =
      (urls.filter (fun u => !shouldSkipUrl u)).filter (fun u => priorityKey u = k)) ∧
    (∀ l1 l2 l3 : List Str, ∀ a b : Str,
      scrapePlan urls none = l1 ++ a :: (l2 ++ b :: l3) →
      priorityKey a ≤ priorityKey b) ∧
    (∀ l1 l2 l3 : List Str, ∀ a b : Str,
      scrapePlan urls none = l1 ++ b :: (l2 ++ a :: l3) →
      matchesSimplePage a = true → priorityKey b = 5 → False) := by
  have hsorted : (scrapePlan urls none).Pairwise
      (fun a b => priorityKey a ≤ priorityKey b) :=
    stableSort_sorted _
  have horder : ∀ l1 l2 l3 : List Str, ∀ a b : Str,
      scrapePlan urls none = l1 ++ a :: (l2 ++ b :: l3) →
      priorityKey a ≤ priorityKey b := by
    intro l1 l2 l3 a b heq
    have hsub : [a, b].Sublist (scrapePlan urls none) := by
      rw [heq]
      refine List.Sublist.trans ?_ (List.sublist_append_right l1 _)
      refine List.Sublist.cons₂ a ?_
      refine List.Sublist.trans ?_ (List.sublist_append_right l2 _)
      exact List.Sublist.cons₂ b (List.nil_sublist l3)
    have := hsorted.sublist hsub
    exact (List.pairwise_cons.1 this).1 b (List.mem_singleton_self b)
  refine ⟨?_, ?_, ?_, stableSort_perm _ _, ?_, horder, ?_⟩
  · intro u hu
    exact ((mem_scrapePlan_iff urls u).1 hu).2
  · intro u hinf hmem
    have h1 := ((mem_scrapePlan_iff urls u).1 hmem).2
    rw [shouldSkipUrl_of_category u hinf] at h1
    exact absurd h1 (by simp)
  · intro u hsuf hmem
    have h1 := ((mem_scrapePlan_iff urls u).1 hmem).2
    rw [shouldSkipUrl_of_de u hsuf] at h1
    exact absurd h1 (by simp)
  · intro k
    exact filter_stableSort k _
  · intro l1 l2 l3 a b heq hmatch hb
    have h1 := horder l1 l2 l3 b a heq
    have h0 : priorityKey a = 0 := by
      rw [priorityKey, if_pos hmatch]
    omega

theorem c6_witness : "/wiki/Category:Fish".data ∉ scrapePlan c6urls none :=
  (c6_crawl_planning c6urls).2.1 "/wiki/Category:Fish".data (by decide)

/-- C4 counterexample: the source's scrape planning has no `skip_urls`
input at all — for the concrete one-url list, the spec-modelled
incremental plan with `skip_urls = {"/wiki/Fish"}` omits the url while
`WikiScraper.scrape_all` keeps it (and `VectorStore` has no
`indexed_urls` operation to produce such a set). -/
theorem c4_counterexample :
    "/wiki/Fish".data ∈ scrapePlan ["/wiki/Fish".data] none ∧
    "/wiki/Fish".data ∉ scrapePlanSpec ["/wiki/Fish".data] none ["/wiki/Fish".data] ∧
    scrapePlan ["/wiki/Fish".data] none ≠
      scrapePlanSpec ["/wiki/Fish".data] none ["/wiki/Fish".data] := by
  decide

/-- C4 (amended): the scrape run accepts no `skip_urls` set — its
planning omits nothing beyond the urls rejected by `should_skip_url`:
every input url that the static skip filter keeps is processed. -/
theorem c4_no_incremental_skip (urls : List Str) (u : Str) (h1 : u ∈ urls)
    (h2 : shouldSkipUrl u = false) : u ∈ scrapePlan urls none :=
  (mem_scrapePlan_iff urls u).2 ⟨h1, h2⟩

theorem c4_witness : "/wiki/Fish".data ∈ scrapePlan c6urls none :=
  c4_no_incremental_skip c6urls "/wiki/Fish".data (by decide) (by decide)

theorem toDigitsCore_acc (fuel : Nat) :
    ∀ (n : Nat) (ds : List Char),
      Nat.toDigitsCore 10 fuel n ds = Nat.toDigitsCore 10 fuel n [] ++ ds := by
  induction fuel with
  | zero => intro n ds; rfl
  | succ fuel ih =>
    intro n ds
    rw [Nat.toDigitsCore, Nat.toDigitsCore]
    by_cases h : n / 10 = 0
    · simp [h]
    · rw [if_neg h, if_neg h, ih (n / 10) [Nat.digitChar (n % 10)],
        ih (n / 10) (Nat.digitChar (n % 10) :: ds)]
      simp

theorem toDigitsCore_eq_digits (n : Nat) (hn : 0 < n) :
    ∀ fuel, n ≤ fuel →
      Nat.toDigitsCore 10 fuel n [] = ((Nat.digits 10 n).map Nat.digitChar).reverse := by
  induction n using Nat.strong_induction_on with
  | _ n ihn =>
    intro fuel hfuel
    match fuel with
    | 0 => omega
    | fuel + 1 =>
      rw [Nat.toDigitsCore]
      have hdig : Nat.digits 10 n = n % 10 :: Nat.digits 10 (n / 10) :=
        Nat.digits_def' (by norm_num) hn
      rw [hdig]
      simp only [List.map_cons, List.reverse_cons]
      by_cases h : n / 10 = 0
      · rw [if_pos h, h]
        simp
      · rw [if_neg h]
        have hlt : n / 10 < n := Nat.div_lt_self hn (by norm_num)
        have hfl : n / 10 ≤ fuel := by omega
        rw [toDigitsCore_acc fuel (n / 10) [Nat.digitChar (n % 10)],
          ihn (n / 10) hlt (Nat.pos_of_ne_zero h) fuel hfl]

theorem toDigits_zero_eq : Nat.toDigits 10 0 = ['0'] := by decide

theorem toDigits_eq_digits (n : Nat) (hn : 0 < n) :
    Nat.toDigits 10 n = ((Nat.digits 10 n).map Nat.digitChar).reverse :=
  toDigitsCore_eq_digits n hn (n + 1) (Nat.le_succ n)

theorem digitChar_inj_lt :
    ∀ d1 < 10, ∀ d2 < 10, Nat.digitChar d1 = Nat.digitChar d2 → d1 = d2 := by
  decide

theorem map_digitChar_inj (l1 : List Nat) :
    ∀ l2 : List Nat, (∀ x ∈ l1, x < 10) → (∀ x ∈ l2, x < 10) →
      l1.map Nat.digitChar = l2.map Nat.digitChar → l1 = l2 := by
  induction l1 with
  | nil => intro l2 _ _ h; cases l2 with
    | nil => rfl
    | cons y ys => simp at h
  | cons x xs ih =>
    intro l2 hx hy h
    cases l2 with
    | nil => simp at h
    | cons y ys =>
      simp only [List.map_cons, List.cons.injEq] at h
      have hxy : x = y :=
        digitChar_inj_lt x (hx x (List.mem_cons_self x xs)) y
          (hy y (List.mem_cons_self y ys)) h.1
      rw [hxy, ih ys (fun z hz => hx z (List.mem_cons_of_mem x hz))
        (fun z hz => hy z (List.mem_cons_of_mem y hz)) h.2]

theorem not_toDigits_pos_eq_zero_char (n : Nat) (hn : 0 < n)
    (h : Nat.toDigits 10 n = ['0']) : False := by
  rw [toDigits_eq_digits n hn] at h
  have h2 : (Nat.digits 10 n).map Nat.digitChar = ['0'] := by
    have := congrArg List.reverse h
    simpa using this
  have hdig : Nat.digits 10 n = [0] := by
    cases hd : Nat.digits 10 n with
    | nil => rw [hd] at h2; simp at h2
    | cons d ds =>
      rw [hd] at h2
      cases ds with
      | nil =>
        simp only [List.map_cons, List.map_nil, List.cons.injEq] at h2
        have hdlt : d < 10 :=
          Nat.digits_lt_base (by norm_num) (by rw [hd]; exact List.mem_cons_self d [])
        have hd0 : d = 0 := digitChar_inj_lt d hdlt 0 (by norm_num) (by simpa using h2.1)
        rw [hd0]
      | cons e es => simp at h2
  have h3 := Nat.ofDigits_digits 10 n
  rw [hdig] at h3
  have : n = 0 := by simpa [Nat.ofDigits] using h3.symm
  omega

theorem toDigits_injective (a b : Nat) (h : Nat.toDigits 10 a = Nat.toDigits 10 b) :
    a = b := by
  rcases Nat.eq_zero_or_pos a with ha | ha <;> rcases Nat.eq_zero_or_pos b with hb | hb
  · rw [ha, hb]
  · exact absurd (by rw [← h, ha, toDigits_zero_eq]) (fun hh =>
      not_toDigits_pos_eq_zero_char b hb hh)
  · exact absurd (by rw [h, hb, toDigits_zero_eq]) (fun hh =>
      not_toDigits_pos_eq_zero_char a ha hh)
  · rw [toDigits_eq_digits a ha, toDigits_eq_digits b hb] at h
    have h2 := List.reverse_injective h
    have h3 := map_digitChar_inj (Nat.digits 10 a) (Nat.digits 10 b)
      (fun x hx => Nat.digits_lt_base (by norm_num) hx)
      (fun x hx => Nat.digits_lt_base (by norm_num) hx) h2
    have h4 := Nat.ofDigits_digits 10 a
    rw [h3, Nat.ofDigits_digits 10 b] at h4
    exact h4.symm

theorem chunkId_injective (a b : Nat) (h : chunkId a = chunkId b) : a = b := by
  unfold chunkId at h
  have h2 : (Nat.repr a).data = (Nat.repr b).data := by
    have hl := congrArg (List.drop 6) h
    simpa using hl
  have h3 : Nat.toDigits 10 a = Nat.toDigits 10 b := by
    simpa [Nat.repr, List.asString] using h2
  exact toDigits_injective a b h3

theorem addChunksIdsF_eq (bs : Nat) (hbs : 0 < bs) :
    ∀ fuel i n : Nat, n - i ≤ fuel →
      addChunksIdsF fuel i n bs = (List.range' i (n - i)).map chunkId := by
  intro fuel
  induction fuel with
  | zero =>
    intro i n hle
    have h0 : n - i = 0 := Nat.le_zero.1 hle
    rw [addChunksIdsF, h0]
    rfl
  | succ fuel ih =>
    intro i n hle
    rw [addChunksIdsF]
    by_cases h : i < n
    · rw [if_pos h]
      have hrec : addChunksIdsF fuel (i + bs) n bs =
          (List.range' (i + bs) (n - (i + bs))).map chunkId := by
        apply ih
        omega
      rw [hrec]
      have hmap : (List.range (min bs (n - i))).map (fun j => chunkId (i + j)) =
          (List.range' i (min bs (n - i))).map chunkId := by
        rw [List.range'_eq_map_range]
        rw [List.map_map]
        rfl
      rw [hmap, ← List.map_append]
      congr 1
      have : n - (i + bs) = n - i - bs := by omega
      rw [this]
      have hsplit : min bs (n - i) + (n - i - bs) = n - i := by omega
      calc List.range' i (min bs (n - i)) ++ List.range' (i + bs) (n - i - bs)
          = List.range' i (min bs (n - i)) ++
              List.range' (i + min bs (n - i)) (n - i - bs) := by
            by_cases hb : bs ≤ n - i
            · rw [Nat.min_eq_left hb]
            · have h1 : min bs (n - i) = n - i := Nat.min_eq_right (by omega)
              have h2 : n - i - bs = 0 := by omega
              rw [h1, h2]
              simp
        _ = List.range' i (n - i) := by
            have hap := (List.range'_append i (min bs (n - i)) (n - i - bs) 1).symm
            rw [Nat.one_mul] at hap
            rw [← hap]
            congr 1
            omega
    · rw [if_neg h]
      have h0 : n - i = 0 := by omega
      rw [h0]
      rfl

/-- C10: a single `add_chunks` call over `n` chunks assigns exactly the
identifiers `chunk_0 .. chunk_{n-1}` (across its batches of 100), which
are pairwise distinct; numbering restarts at `chunk_0` on every call,
so any two calls on non-empty chunk lists assign overlapping
identifiers (both assign `chunk_0`), and a later call collides with the
documents stored by an earlier one. -/
theorem c10_add_chunks_ids (n m : Nat) (hn : 0 < n) (hm : 0 < m) :
    addChunksIds n 100 = (List.range n).map chunkId ∧
    (addChunksIds n 100).Nodup ∧
    chunkId 0 ∈ addChunksIds n 100 ∧ chunkId 0 ∈ addChunksIds m 100 := by
  have heq : ∀ p : Nat, addChunksIds p 100 = (List.range p).map chunkId := by
    intro p
    rw [addChunksIds, if_neg (by norm_num)]
    rw [addChunksIdsF_eq 100 (by norm_num) p 0 p (by omega)]
    rw [Nat.sub_zero, ← List.range_eq_range']
  refine ⟨heq n, ?_, ?_, ?_⟩
  · rw [heq n]
    exact List.Nodup.map (fun a b hab => chunkId_injective a b hab) (List.nodup_range n)
  · rw [heq n]
    exact List.mem_map.2 ⟨0, List.mem_range.2 hn, rfl⟩
  · rw [heq m]
    exact List.mem_map.2 ⟨0, List.mem_range.2 hm, rfl⟩

theorem c10_witness :
    addChunksIds 2 100 = (List.range 2).map chunkId ∧
    (addChunksIds 2 100).Nodup ∧
    chunkId 0 ∈ addChunksIds 2 100 ∧ chunkId 0 ∈ addChunksIds 3 100 :=
  c10_add_chunks_ids 2 3 (by decide) (by decide)

theorem sectionChunks_section (page : WikiPage) (size ov : Nat) (sec : WikiSection) :
    ∀ c ∈ sectionChunks page size ov sec, c.metadata.section' = some sec.heading := by
  intro c hc
  rw [sectionChunks] at hc
  obtain ⟨it, _, rfl⟩ := List.mem_map.1 hc
  rfl

/-- C5 (amended): for a page whose infobox is non-empty and whose
section headings differ from the literal `infobox`, the chunker emits
exactly one chunk tagged `section="infobox"` — the whole formatted
infobox in a single chunk (never split, whatever its length), carrying
no `chunk_index`; and a page with an infobox and no sections yields
exactly that one chunk in total. -/
theorem c5_infobox_single_chunk (page : WikiPage) (size ov : Nat)
    (h1 : page.infobox ≠ [])
    (h2 : ∀ s ∈ page.sections, s.heading ≠ "infobox".data) :
    (createChunks page size ov).filter
        (fun c => c.metadata.section' = some "infobox".data) = [infoboxChunk page] ∧
    (infoboxChunk page).text = page.title ++ "\n\n".data ++ formatInfobox page.infobox ∧
    (infoboxChunk page).metadata.chunk_index = none ∧
    (page.sections = [] → createChunks page size ov = [infoboxChunk page]) := by
  refine ⟨?_, rfl, rfl, ?_⟩
  · rw [createChunks, if_pos h1, if_neg (fun hand => h1 hand.2)]
    rw [List.filter_append, List.filter_append]
    have hbox : List.filter (fun c => c.metadata.section' = some "infobox".data)
        [infoboxChunk page] = [infoboxChunk page] := by
      simp [infoboxChunk]
    have hsec : List.filter (fun c => c.metadata.section' = some "infobox".data)
        (page.sections.flatMap (sectionChunks page size ov)) = [] := by
      rw [List.filter_eq_nil_iff]
      intro c hc
      obtain ⟨sec, hsec, hcs⟩ := List.mem_flatMap.1 hc
      have := sectionChunks_section page size ov sec c hcs
      simp only [this, decide_eq_true_eq, Option.some.injEq]
      exact h2 sec hsec
    rw [hbox, hsec]
    simp
  · intro hs
    rw [createChunks, if_pos h1, if_neg (fun hand => h1 hand.2), hs]
    simp

/-- C5 counterexample: a page whose infobox is non-empty but which also
has a section literally headed `infobox` makes the chunker emit two
chunks whose metadata section equals `infobox` (the infobox chunk and
the section's chunk), so "exactly one chunk whose metadata section
equals infobox" fails as stated. -/
theorem c5_counterexample :
    ((createChunks c5page 500 50).filter
      (fun c => c.metadata.section' = some "infobox".data)).length = 2 := by
  decide

theorem c5_witness :
    (createChunks c5goodpage 500 50).filter
        (fun c => c.metadata.section' = some "infobox".data) = [infoboxChunk c5goodpage] ∧
    createChunks c5goodpage 500 50 = [infoboxChunk c5goodpage] := by
  have h := c5_infobox_single_chunk c5goodpage 500 50 (by decide) (by
    intro s hs
    simp [c5goodpage] at hs)
  exact ⟨h.1, h.2.2.2 rfl⟩

theorem flatten_splitKeepSepF (fuel : Nat) :
    ∀ (sep acc t : Str), (splitKeepSepF fuel sep acc t).flatten = acc.reverse ++ t := by
  induction fuel with
  | zero => intro sep acc t; simp [splitKeepSepF]
  | succ fuel ih =>
    intro sep acc t
    show (splitKeepSepF (fuel + 1) sep acc t).flatten = acc.reverse ++ t
    rw [show splitKeepSepF (fuel + 1) sep acc t =
        (if sep ≠ [] ∧ sep.isPrefixOf t then
          (acc.reverse ++ sep) :: splitKeepSepF fuel sep [] (t.drop sep.length)
        else
          match t with
          | [] => [acc.reverse]
          | c :: t' => splitKeepSepF fuel sep (c :: acc) t') from rfl]
    by_cases h : sep ≠ [] ∧ sep.isPrefixOf t
    · rw [if_pos h]
      have hpre : sep <+: t := List.isPrefixOf_iff_prefix.1 h.2
      obtain ⟨rest, hrest⟩ := hpre
      rw [List.flatten_cons, ih sep [] (t.drop sep.length)]
      rw [← hrest, List.drop_left]
      simp
    · rw [if_neg h]
      match t with
      | [] => simp
      | c :: t' =>
        rw [ih sep (c :: acc) t']
        simp

theorem flatten_splitKeepSep (sep t : Str) : (splitKeepSep sep t).flatten = t := by
  rw [splitKeepSep, flatten_splitKeepSepF]
  rfl

theorem flatten_charChunksF (fuel : Nat) :
    ∀ (size : Nat) (t : Str), (charChunksF fuel size t).flatten = t := by
  induction fuel with
  | zero => intro size t; simp [charChunksF]
  | succ fuel ih =>
    intro size t
    rw [charChunksF]
    by_cases h : size = 0 ∨ t.length ≤ size
    · rw [if_pos h]; simp
    · rw [if_neg h, List.flatten_cons, ih size (t.drop size)]
      exact List.take_append_drop size t

theorem flatten_recSplit (seps : List Str) :
    ∀ (size : Nat) (t : Str), (recSplit seps size t).flatten = t := by
  induction seps with
  | nil =>
    intro size t
    rw [recSplit]
    by_cases h : t.length ≤ size
    · rw [if_pos h]; simp
    · rw [if_neg h]
      exact flatten_charChunksF t.length size t
  | cons sep rest ih =>
    intro size t
    rw [recSplit]
    by_cases h : t.length ≤ size
    · rw [if_pos h]; simp
    · rw [if_neg h]
      have hflat : ∀ ps : List Str,
          (ps.flatMap (fun piece => recSplit rest size piece)).flatten = ps.flatten := by
        intro ps
        induction ps with
        | nil => rfl
        | cons p ps ihp =>
          rw [List.flatMap_cons, List.flatten_append, ihp, List.flatten_cons, ih size p]
      rw [hflat (splitKeepSep sep t), flatten_splitKeepSep]

/-- C8: for each section, the chunker's output texts are exactly the
overlap-stitched split pieces with the `"{title} - {heading}"` prefix
put in front of each; removing the prefix and the carried overlap
leaves `recSplit`'s pieces, whose concatenation is the whole original
section content — every character of the section appears in some
chunk, in order, with no gaps; and each of those chunks is among the
page's chunks. -/
theorem c8_section_roundtrip (page : WikiPage) (size ov : Nat) (sec : WikiSection)
    (h : sec ∈ page.sections) :
    (sectionChunks page size ov sec).map (fun c => c.text) =
      (stitch ov (recSplit separators size sec.content)).map
        (fun t => sectionPref page sec ++ t) ∧
    (recSplit separators size sec.content).flatten = sec.content ∧
    ∀ c ∈ sectionChunks page size ov sec, c ∈ createChunks page size ov := by
  refine ⟨?_, flatten_recSplit separators size sec.content, ?_⟩
  · rw [sectionChunks, List.map_map]
    have hmap : ((fun c : Chunk => c.text) ∘ fun it : Nat × Str =>
        ({ text := sectionPref page sec ++ it.2
           metadata := { baseMetadata page with
                           section' := some sec.heading
                           chunk_index := some it.1 } } : Chunk)) =
        ((fun t => sectionPref page sec ++ t) ∘ Prod.snd) := rfl
    rw [hmap, ← List.map_map, List.enum_map_snd]
    rfl
  · intro c hc
    rw [createChunks]
    refine List.mem_append.2 (Or.inl (List.mem_append.2 (Or.inr ?_)))
    exact List.mem_flatMap.2 ⟨sec, h, hc⟩

theorem c8_witness :
    (sectionChunks c8page 5 2 c8sec).map (fun c => c.text) =
      (stitch 2 (recSplit separators 5 c8sec.content)).map
        (fun t => sectionPref c8page c8sec ++ t) ∧
    (recSplit separators 5 c8sec.content).flatten = c8sec.content :=
  ⟨(c8_section_roundtrip c8page 5 2 c8sec (by decide)).1,
   (c8_section_roundtrip c8page 5 2 c8sec (by decide)).2.1⟩
